import Mathlib

/-!
Verification of the async_modbus protocol engine (src/async_modbus.py).

Bytes are modelled as `Nat` values (well-formed wire bytes are < 256), byte
strings as `List Nat`, bit vectors as `List Bool`.  Pure Python functions
become Lean functions; fallible operations (struct.pack range errors,
numpy.frombuffer buffer underruns) return `Option`/`Except`.  The async
transaction drivers are modelled as functions from the request ADU and the
stream's pending response bytes to a trace recording the bytes written, the
sizes of the `readexactly` calls issued, and the outcome.

Code of the repository that lives in the vendored umodbus / connio
dependencies (exception decoding, the response-size oracle, CRC-16,
argument validation, URL scheme sets) is not under src/; those definitions
are modelled from the spec and marked as such in their doc comments.
-/

/-- Big-endian 16-bit value from the last two bytes of a byte string
(Python `struct.unpack(">H", b[-2:])`); `none` when fewer than two bytes
are available (struct.error). -/
def lastTwoBE (l : List Nat) : Option Nat :=
  match l.reverse with
  | lo :: hi :: _ => some (256 * hi + lo)
  | _ => none

/-- Big-endian byte pair of a 16-bit value (`struct.pack(">H", n)`). -/
def u16beBytes (n : Nat) : List Nat := [n / 256, n % 256]

/-- Value of a bit list read least-significant-bit first
(`numpy.packbits(_, bitorder="little")` on one chunk of up to 8 bits). -/
def bitsToByte (bits : List Bool) : Nat :=
  bits.foldr (fun b acc => (if b then 1 else 0) + 2 * acc) 0

/-- The 8 bits of a byte, least-significant first
(`numpy.unpackbits(_, bitorder="little")` on one byte). -/
def byteToBits (b : Nat) : List Bool :=
  [b.testBit 0, b.testBit 1, b.testBit 2, b.testBit 3,
   b.testBit 4, b.testBit 5, b.testBit 6, b.testBit 7]

/-- `numpy.packbits(values, bitorder="little")`: pack bits 8 per byte,
least-significant-bit first, the trailing bits of the last byte padded
with zeros. -/
def packBits (bits : List Bool) : List Nat :=
  if h : bits.isEmpty then []
  else bitsToByte (bits.take 8) :: packBits (bits.drop 8)
termination_by bits.length
decreasing_by
  simp only [List.length_drop]
  have hne : bits.length ≠ 0 := by
    simpa [List.isEmpty_iff, List.length_eq_zero] using h
  omega

/-- `numpy.unpackbits(bytes, bitorder="little")` without a count: all bits,
least-significant-bit of each byte first. -/
def unpackBytes (bytes : List Nat) : List Bool :=
  (bytes.map byteToBits).flatten

theorem byteToBits_length (b : Nat) : (byteToBits b).length = 8 := rfl

theorem unpackBytes_length (bytes : List Nat) :
    (unpackBytes bytes).length = 8 * bytes.length := by
  induction bytes with
  | nil => rfl
  | cons b t ih =>
    have h8 : (byteToBits b).length = 8 := rfl
    simp only [unpackBytes, List.map_cons, List.flatten_cons, List.length_append,
      List.length_cons] at ih ⊢
    omega

theorem packBits_nil : packBits [] = [] := by
  rw [packBits]; rfl

theorem packBits_cons (b : Bool) (t : List Bool) :
    packBits (b :: t) =
      bitsToByte ((b :: t).take 8) :: packBits ((b :: t).drop 8) := by
  rw [packBits]; rfl

theorem packBits_length (bits : List Bool) :
    (packBits bits).length = (bits.length + 7) / 8 := by
  induction bits using packBits.induct with
  | case1 bits h =>
    rw [List.isEmpty_iff] at h
    subst h; simp [packBits_nil]
  | case2 bits h ih =>
    rw [List.isEmpty_iff] at h
    match bits, h with
    | b :: t, _ =>
      rw [packBits_cons]
      simp only [List.length_cons, List.length_drop] at *
      omega

theorem bitsToByte_testBit (l : List Bool) (i : Nat) :
    (bitsToByte l).testBit i = l.getD i false := by
  induction l generalizing i with
  | nil => simp [bitsToByte, Nat.testBit]
  | cons b t ih =>
    have hb : bitsToByte (b :: t) = (if b then 1 else 0) + 2 * bitsToByte t := rfl
    cases i with
    | zero =>
      rw [hb, Nat.testBit_zero]
      cases b <;> simp [Nat.add_mul_mod_self_left]
    | succ i =>
      rw [hb, Nat.testBit_add_one]
      have hdiv : ((if b then 1 else 0) + 2 * bitsToByte t) / 2 = bitsToByte t := by
        cases b <;> simp <;> omega
      rw [hdiv, ih]
      rfl

theorem byteToBits_getD (b i : Nat) (h : i < 8) :
    (byteToBits b).getD i false = b.testBit i := by
  interval_cases i <;> rfl

theorem unpackBytes_cons (b : Nat) (t : List Nat) :
    unpackBytes (b :: t) = byteToBits b ++ unpackBytes t := rfl

theorem unpackBytes_getD (data : List Nat) (i : Nat) :
    (unpackBytes data).getD i false = (data.getD (i / 8) 0).testBit (i % 8) := by
  induction data generalizing i with
  | nil => simp [unpackBytes, Nat.testBit]
  | cons d t ih =>
    rw [unpackBytes_cons]
    by_cases h : i < 8
    · rw [List.getD_append _ _ _ _ (by rw [byteToBits_length]; exact h)]
      rw [byteToBits_getD d i h, Nat.div_eq_of_lt h, Nat.mod_eq_of_lt h]
      rfl
    · push_neg at h
      obtain ⟨j, rfl⟩ : ∃ j, i = 8 + j := ⟨i - 8, by omega⟩
      rw [List.getD_append_right _ _ _ _ (by rw [byteToBits_length]; omega)]
      rw [byteToBits_length]
      have h1 : 8 + j - 8 = j := by omega
      have h2 : (8 + j) / 8 = j / 8 + 1 := by omega
      have h3 : (8 + j) % 8 = j % 8 := by omega
      rw [h1, ih j, h2, h3]
      rfl

theorem packBits_getD (bits : List Bool) (j : Nat) :
    (packBits bits).getD j 0 = bitsToByte ((bits.drop (8 * j)).take 8) := by
  induction bits using packBits.induct generalizing j with
  | case1 bits h =>
    rw [List.isEmpty_iff] at h
    subst h
    simp [packBits_nil, bitsToByte]
  | case2 bits h ih =>
    rw [List.isEmpty_iff] at h
    match bits, h with
    | b :: t, _ =>
      rw [packBits_cons]
      cases j with
      | zero => simp
      | succ j =>
        have : (b :: t).drop (8 * (j + 1)) = ((b :: t).drop 8).drop (8 * j) := by
          rw [List.drop_drop]
          congr 1
          ring
        rw [this, List.getD_cons_succ, ih j]

theorem getD_take (l : List α) (n i : Nat) (d : α) (h : i < n) :
    (l.take n).getD i d = l.getD i d := by
  rw [List.getD_eq_getElem?_getD, List.getD_eq_getElem?_getD,
    List.getElem?_take, if_pos h]

theorem getD_drop (l : List α) (n i : Nat) (d : α) :
    (l.drop n).getD i d = l.getD (n + i) d := by
  rw [List.getD_eq_getElem?_getD, List.getD_eq_getElem?_getD,
    List.getElem?_drop]

/-- src `unpack_bits(resp_pdu, req_pdu)`: the requested quantity is the
big-endian u16 in the last two bytes of the request PDU, the byte count is
`resp_pdu[1]`; `numpy.frombuffer(resp_pdu, "u1", offset=2, count=byte_count)`
fails when fewer than `byte_count` bytes follow the two-byte header, and
`numpy.unpackbits(packed, count=count, bitorder="little")` fails when
`count > 8 * byte_count`; otherwise the first `count` unpacked bits are
returned. -/
def unpack_bits (resp_pdu req_pdu : List Nat) : Option (List Bool) :=
  match lastTwoBE req_pdu, resp_pdu.drop 1 with
  | some count, byte_count :: _ =>
    if byte_count + 2 ≤ resp_pdu.length ∧ count ≤ 8 * byte_count then
      some ((unpackBytes ((resp_pdu.drop 2).take byte_count)).take count)
    else none
  | _, _ => none

/-- src `pack_bits(function_code, starting_address, values)`: header built by
`struct.pack(">BHHB", fc, start, count, (count + 7) // 8)` (a struct.error,
modelled as `none`, when an argument exceeds its field's range), followed by
`numpy.packbits(values, bitorder="little")`. -/
def pack_bits (function_code starting_address : Nat) (values : List Bool) :
    Option (List Nat) :=
  if function_code ≤ 255 ∧ starting_address ≤ 65535 ∧
      values.length ≤ 65535 ∧ (values.length + 7) / 8 ≤ 255 then
    some ([function_code] ++ u16beBytes starting_address ++
      u16beBytes values.length ++ [(values.length + 7) / 8] ++ packBits values)
  else none

/-- Signed reinterpretation of an unsigned 16-bit value (two's complement). -/
def toSigned16 (v : Int) : Int := if 32768 ≤ v then v - 65536 else v

/-- Big-endian two-byte encoding of one register value, as performed by
`numpy.array(values, dtype=">i2" or ">u2")` followed by `.tobytes()` in src
`pack_16bits`; a Python `OverflowError` (value outside the dtype's range) is
modelled as `none`. -/
def encode16 (signed : Bool) (v : Int) : Option (List Nat) :=
  if signed then
    if -32768 ≤ v ∧ v ≤ 32767 then some (u16beBytes (v % 65536).toNat) else none
  else
    if 0 ≤ v ∧ v ≤ 65535 then some (u16beBytes v.toNat) else none

/-- Big-endian two-byte decoding of one register value, as performed by
`numpy.frombuffer(_, dtype=">i2" or ">u2")` in src `unpack_16bits`. -/
def decode16 (signed : Bool) (hi lo : Nat) : Int :=
  let u : Int := 256 * hi + lo
  if signed then toSigned16 u else u

/-- Decode consecutive big-endian byte pairs into register values. -/
def decodePairs (signed : Bool) : List Nat → List Int
  | hi :: lo :: rest => decode16 signed hi lo :: decodePairs signed rest
  | _ => []

/-- src `pack_16bits(function_code, starting_address, values)`: header built
by `struct.pack(">BHHB", fc, start, values.size, values.nbytes)` with
`nbytes = 2 * size`, followed by the registers as big-endian 16-bit values in
the dtype selected by `conf.SIGNED_VALUES` (the `signed` argument here). -/
def pack_16bits (signed : Bool) (function_code starting_address : Nat)
    (values : List Int) : Option (List Nat) :=
  match values.mapM (encode16 signed) with
  | none => none
  | some encoded =>
    if function_code ≤ 255 ∧ starting_address ≤ 65535 ∧
        values.length ≤ 65535 ∧ 2 * values.length ≤ 255 then
      some ([function_code] ++ u16beBytes starting_address ++
        u16beBytes values.length ++ [2 * values.length] ++ encoded.flatten)
    else none

/-- src `unpack_16bits(resp_pdu, req_pdu)`: the count is the big-endian u16
in the last two bytes of the request PDU;
`numpy.frombuffer(resp_pdu, dtype, count=count, offset=2)` fails when fewer
than `2 * count` bytes follow the two-byte header. -/
def unpack_16bits (signed : Bool) (resp_pdu req_pdu : List Nat) :
    Option (List Int) :=
  match lastTwoBE req_pdu with
  | none => none
  | some count =>
    if 2 + 2 * count ≤ resp_pdu.length then
      some (decodePairs signed ((resp_pdu.drop 2).take (2 * count)))
    else none

/-- The ten Modbus exception kinds of the spec's code-to-error map. -/
inductive ExceptionKind where
  | illegalFunction
  | illegalDataAddress
  | illegalDataValue
  | serverDeviceFailure
  | acknowledge
  | serverDeviceBusy
  | negativeAcknowledge
  | memoryParityError
  | gatewayPathUnavailable
  | gatewayTargetFailed
deriving DecidableEq, Repr

/-- Modelled from the spec: the umodbus exception-code-to-error map
(codes 01-08, 0A, 0B), absent from src. -/
def exceptionKindOfCode : Nat → Option ExceptionKind
  | 1 => some .illegalFunction
  | 2 => some .illegalDataAddress
  | 3 => some .illegalDataValue
  | 4 => some .serverDeviceFailure
  | 5 => some .acknowledge
  | 6 => some .serverDeviceBusy
  | 7 => some .negativeAcknowledge
  | 8 => some .memoryParityError
  | 10 => some .gatewayPathUnavailable
  | 11 => some .gatewayTargetFailed
  | _ => none

/-- Errors a client call can surface: server exception responses, framing
and transport failures, and the Python-level failure modes of the source
(struct.error, AttributeError, umodbus IllegalDataValueError, and the
unsupported-scheme ValueError of the URL factory). -/
inductive ModbusErr where
  | protocolException (k : ExceptionKind)
  | unmappedExceptionCode (code : Nat)
  | crcError
  | shortRead
  | unknownFunctionCode
  | structError
  | illegalDataValue
  | attributeError
  | unsupportedScheme
deriving DecidableEq, Repr

/-- One CRC-16/Modbus shift step: shift right, XOR with 0xA001 when the
dropped bit was set. -/
def crcShift (x : Nat) : Nat :=
  if x % 2 = 1 then (x / 2) ^^^ 0xA001 else x / 2

/-- Fold one byte into the CRC: XOR into the low byte, then eight shift
steps. -/
def crcByte (crc b : Nat) : Nat :=
  crcShift (crcShift (crcShift (crcShift
    (crcShift (crcShift (crcShift (crcShift (crc ^^^ b % 256))))))))

/-- Modelled from the spec: CRC-16/Modbus (polynomial 0xA001 reflected,
initial value 0xFFFF, no final XOR), as computed by umodbus
`get_crc`, absent from src. -/
def crc16 (data : List Nat) : Nat := data.foldl crcByte 0xFFFF

/-- The two CRC bytes as they appear on the wire (little-endian). -/
def crcBytes (data : List Nat) : List Nat :=
  [crc16 data % 256, crc16 data / 256]

/-- Modelled from the spec: umodbus `tcp.raise_for_exception_adu`, absent
from src.  On the 9-byte prefix of a TCP response ADU, an exception is
signalled by bit 0x80 of the PDU function-code byte (offset 7); the
exception code at offset 8 selects the raised error. -/
def raise_for_exception_adu_tcp (adu : List Nat) : Option ModbusErr :=
  if (adu.getD 7 0).testBit 7 then
    match exceptionKindOfCode (adu.getD 8 0) with
    | some k => some (.protocolException k)
    | none => some (.unmappedExceptionCode (adu.getD 8 0))
  else none

/-- Modelled from the spec: umodbus `rtu.raise_for_exception_adu`, absent
from src.  On the 5-byte prefix of an RTU response ADU, an exception is
signalled by bit 0x80 of the PDU function-code byte (offset 1); the CRC over
the first three bytes is validated, then the exception code at offset 2
selects the raised error. -/
def raise_for_exception_adu_rtu (adu : List Nat) : Option ModbusErr :=
  if (adu.getD 1 0).testBit 7 then
    if adu.drop 3 = crcBytes (adu.take 3) then
      match exceptionKindOfCode (adu.getD 2 0) with
      | some k => some (.protocolException k)
      | none => some (.unmappedExceptionCode (adu.getD 2 0))
    else some .crcError
  else none

/-- Big-endian u16 at offsets 3..4 of a PDU (`struct.unpack(">H", pdu[3:5])`),
`none` when the PDU is shorter than 5 bytes (struct.error). -/
def u16At3 (pdu : List Nat) : Option Nat :=
  match pdu.drop 3 with
  | a :: b :: _ => some (256 * a + b)
  | _ => none

/-- Modelled from the spec: umodbus
`expected_response_pdu_size_from_request_pdu`, absent from src.  Given the
request PDU it returns the exact byte length of the successful response PDU:
`2 + ceil(quantity / 8)` for bit reads (fc 01/02), `2 + 2 * quantity` for
register reads (fc 03/04) and `5` for the write echoes (fc 05/06/15/16),
with `quantity` the big-endian u16 at PDU offset 3. -/
def expected_response_pdu_size_from_request_pdu (pdu : List Nat) :
    Option Nat :=
  match pdu with
  | [] => none
  | fc :: _ =>
    if fc = 1 ∨ fc = 2 then (u16At3 pdu).map (fun q => 2 + (q + 7) / 8)
    else if fc = 3 ∨ fc = 4 then (u16At3 pdu).map (fun q => 2 + 2 * q)
    else if fc = 5 ∨ fc = 6 ∨ fc = 15 ∨ fc = 16 then some 5
    else none

theorem expected_response_pdu_size_ge_two (pdu : List Nat) (s : Nat)
    (h : expected_response_pdu_size_from_request_pdu pdu = some s) : 2 ≤ s := by
  match pdu with
  | [] => simp [expected_response_pdu_size_from_request_pdu] at h
  | fc :: rest =>
    simp only [expected_response_pdu_size_from_request_pdu] at h
    split at h
    · match hu : u16At3 (fc :: rest) with
      | none => rw [hu] at h; simp at h
      | some q => rw [hu] at h; simp at h; omega
    · split at h
      · match hu : u16At3 (fc :: rest) with
        | none => rw [hu] at h; simp at h
        | some q => rw [hu] at h; simp at h; omega
      · split at h
        · simp at h; omega
        · simp at h

/-- `reader.readexactly(n)` on a stream holding `pending` response bytes:
succeeds with the first `n` bytes and the rest of the stream, fails
(asyncio `IncompleteReadError`) when fewer than `n` bytes arrive before
EOF. -/
def readexactly (pending : List Nat) (n : Nat) :
    Option (List Nat × List Nat) :=
  if n ≤ pending.length then some (pending.take n, pending.drop n) else none

deriving instance DecidableEq for Except

/-- Observable trace of one client call: the bytes written to the stream,
the sizes requested by the successive `readexactly` calls, and the outcome
(for a successful transaction, the response ADU bytes handed to the
protocol's response parser). -/
structure CallTrace where
  written : List Nat
  reads : List Nat
  result : Except ModbusErr (List Nat)
deriving DecidableEq, Repr

/-- src `send_message_tcp(adu, reader, writer)`: write the request ADU,
read exactly the 9-byte exception prefix, decode a possible exception ADU,
otherwise read exactly
`expected_response_pdu_size_from_request_pdu(adu[7:]) + 7 - 9` further
bytes.  The final call to the umodbus response parser (outside src) is
modelled by returning the response ADU bytes handed to it. -/
def send_message_tcp (adu stream : List Nat) : CallTrace :=
  match readexactly stream 9 with
  | none => ⟨adu, [9], .error .shortRead⟩
  | some (pre, rest) =>
    match raise_for_exception_adu_tcp pre with
    | some e => ⟨adu, [9], .error e⟩
    | none =>
      match expected_response_pdu_size_from_request_pdu (adu.drop 7) with
      | none => ⟨adu, [9], .error .unknownFunctionCode⟩
      | some s =>
        match readexactly rest (s + 7 - 9) with
        | none => ⟨adu, [9, s + 7 - 9], .error .shortRead⟩
        | some (remainder, _) => ⟨adu, [9, s + 7 - 9], .ok (pre ++ remainder)⟩

/-- src `send_message_rtu(adu, reader, writer)`: write the request ADU,
read exactly the 5-byte exception prefix, decode a possible exception ADU,
otherwise read exactly
`expected_response_pdu_size_from_request_pdu(adu[1:-2]) + 3 - 5` further
bytes.  The final call to the umodbus response parser (outside src) is
modelled by returning the response ADU bytes handed to it. -/
def send_message_rtu (adu stream : List Nat) : CallTrace :=
  match readexactly stream 5 with
  | none => ⟨adu, [5], .error .shortRead⟩
  | some (pre, rest) =>
    match raise_for_exception_adu_rtu pre with
    | some e => ⟨adu, [5], .error e⟩
    | none =>
      match expected_response_pdu_size_from_request_pdu
          ((adu.take (adu.length - 2)).drop 1) with
      | none => ⟨adu, [5], .error .unknownFunctionCode⟩
      | some s =>
        match readexactly rest (s + 3 - 5) with
        | none => ⟨adu, [5, s + 3 - 5], .error .shortRead⟩
        | some (remainder, _) => ⟨adu, [5, s + 3 - 5], .ok (pre ++ remainder)⟩

/-- The two protocol variants an `AsyncClient` can be bound to. -/
inductive Proto where
  | tcp
  | rtu
deriving DecidableEq, Repr

/-- src `AsyncClient._send_message`: dispatch to the bound protocol's
transaction driver. -/
def send_message (p : Proto) (adu stream : List Nat) : CallTrace :=
  match p with
  | .tcp => send_message_tcp adu stream
  | .rtu => send_message_rtu adu stream

/-- Modelled from the spec: the 7-byte MBAP header
`transaction_id:u16 || protocol_id:u16 (= 0) || length:u16 || unit_id:u8`
of umodbus TCP framing, absent from src. -/
def mbap (tid len uid : Nat) : List Nat :=
  u16beBytes tid ++ [0, 0] ++ u16beBytes len ++ [uid]

/-- Modelled from the spec: TCP request framing `MBAP(7) || PDU` with
`length = 1 + len(PDU)`, absent from src; `none` models a struct.error on
out-of-range header fields. -/
def tcp_frame (tid uid : Nat) (pdu : List Nat) : Option (List Nat) :=
  if tid ≤ 65535 ∧ uid ≤ 255 ∧ pdu.length + 1 ≤ 65535 then
    some (mbap tid (pdu.length + 1) uid ++ pdu)
  else none

/-- Modelled from the spec: RTU request framing
`address:u8 || PDU || crc:u16 (little-endian)`, absent from src. -/
def rtu_frame (uid : Nat) (pdu : List Nat) : Option (List Nat) :=
  if uid ≤ 255 then some ((uid :: pdu) ++ crcBytes (uid :: pdu)) else none

/-- Frame a request PDU for the bound protocol (the TCP transaction id is
irrelevant for RTU). -/
def frame (p : Proto) (tid uid : Nat) (pdu : List Nat) : Option (List Nat) :=
  match p with
  | .tcp => tcp_frame tid uid pdu
  | .rtu => rtu_frame uid pdu

/-- Read-request PDU `fc:u8, start:u16, quantity:u16`. -/
def read_request_pdu (fc start quantity : Nat) : List Nat :=
  [fc] ++ u16beBytes start ++ u16beBytes quantity

/-- Modelled from the spec: a umodbus read-request builder, absent from
src.  Validates the quantity against the per-function-code range (raising
IllegalDataValueError outside it), then frames the PDU. -/
def read_request_build (p : Proto) (fc maxQuantity tid uid start quantity :
    Nat) : Except ModbusErr (List Nat) :=
  if 1 ≤ quantity ∧ quantity ≤ maxQuantity then
    match frame p tid uid (read_request_pdu fc start quantity) with
    | some adu => .ok adu
    | none => .error .structError
  else .error .illegalDataValue

/-- Run one facade call: build the request, and only when building
succeeded hand it to the transaction driver.  A build error leaves the
stream untouched: nothing written, nothing read. -/
def facade_run (build : Except ModbusErr (List Nat)) (p : Proto)
    (stream : List Nat) : CallTrace :=
  match build with
  | .error e => ⟨[], [], .error e⟩
  | .ok adu => send_message p adu stream

namespace AsyncClient

/-- src `AsyncClient.read_coils` (function code 01): build the request via
the bound protocol codec, then transact. -/
def read_coils (p : Proto) (tid uid start quantity : Nat)
    (stream : List Nat) : CallTrace :=
  facade_run (read_request_build p 1 2000 tid uid start quantity) p stream

/-- src `AsyncClient.read_discrete_inputs` (function code 02). -/
def read_discrete_inputs (p : Proto) (tid uid start quantity : Nat)
    (stream : List Nat) : CallTrace :=
  facade_run (read_request_build p 2 2000 tid uid start quantity) p stream

/-- src `AsyncClient.read_holding_registers` (function code 03). -/
def read_holding_registers (p : Proto) (tid uid start quantity : Nat)
    (stream : List Nat) : CallTrace :=
  facade_run (read_request_build p 3 125 tid uid start quantity) p stream

/-- src `AsyncClient.read_input_registers` (function code 04). -/
def read_input_registers (p : Proto) (tid uid start quantity : Nat)
    (stream : List Nat) : CallTrace :=
  facade_run (read_request_build p 4 125 tid uid start quantity) p stream

/-- Modelled from the spec: the umodbus `write_multiple_coils` builder,
absent from src, validates 1..1968 values (IllegalDataValueError outside
that range); the PDU itself is built by the src `pack_bits` via the patched
`request_pdu_coils` property. -/
def write_coils_build (p : Proto) (tid uid start : Nat)
    (values : List Bool) : Except ModbusErr (List Nat) :=
  if 1 ≤ values.length ∧ values.length ≤ 1968 then
    match pack_bits 15 start values with
    | some pdu =>
      match frame p tid uid pdu with
      | some adu => .ok adu
      | none => .error .structError
    | none => .error .structError
  else .error .illegalDataValue

/-- src `AsyncClient.write_coils` (function code 15). -/
def write_coils (p : Proto) (tid uid start : Nat) (values : List Bool)
    (stream : List Nat) : CallTrace :=
  facade_run (write_coils_build p tid uid start values) p stream

/-- Modelled from the spec: the umodbus `write_multiple_registers` builder,
absent from src, validates 1..123 values (IllegalDataValueError outside
that range); the PDU itself is built by the src `pack_16bits` via the
patched `request_pdu_registers` property. -/
def write_registers_build (p : Proto) (signed : Bool) (tid uid start : Nat)
    (values : List Int) : Except ModbusErr (List Nat) :=
  if 1 ≤ values.length ∧ values.length ≤ 123 then
    match pack_16bits signed 16 start values with
    | some pdu =>
      match frame p tid uid pdu with
      | some adu => .ok adu
      | none => .error .structError
    | none => .error .structError
  else .error .illegalDataValue

/-- src `AsyncClient.write_registers` (function code 16). -/
def write_registers (p : Proto) (signed : Bool) (tid uid start : Nat)
    (values : List Int) (stream : List Nat) : CallTrace :=
  facade_run (write_registers_build p signed tid uid start values) p stream

end AsyncClient

/-- A duck-typed Python reader object as `_Stream.__init__` probes it: an
attribute is `some` when `hasattr` sees it.  `read` models the plain
`read(n)` method, which may legally return fewer than `n` bytes. -/
structure PyReader where
  readExactlyAttr : Option (Nat → List Nat)
  readexactlyAttr : Option (Nat → List Nat)
  read : Nat → List Nat

/-- src `_Stream.__init__` attribute selection: prefer `read_exactly`, then
`readexactly`, otherwise assign the reader's plain `read` method itself as
`self.readexactly`. -/
def StreamAdapter.readexactly (r : PyReader) : Nat → List Nat :=
  match r.readExactlyAttr with
  | some f => f
  | none =>
    match r.readexactlyAttr with
    | some f => f
    | none => r.read

/-- A reader exposing only a plain `read` that always returns a single byte
(so the stream never hits EOF, yet never yields `n` bytes in one call). -/
def oneByteReader : PyReader :=
  { readExactlyAttr := none, readexactlyAttr := none, read := fun _ => [7] }

/-- The codec surface of a umodbus client module that `write_register`
needs. -/
structure ClientCodec where
  write_single_register : Nat → Nat → Nat → List Nat

/-- A umodbus client module as seen through attribute access in
`AsyncClient.write_register`: its own codec, and the value of the attribute
named `protocol` (`none` when the module has no such attribute, in which
case the access raises AttributeError). -/
structure ClientModule where
  codec : ClientCodec
  protocolAttr : Option ClientCodec

/-- Modelled from the spec: the write-single-register request PDU
`fc:u8, addr:u16, value:u16` (function code 06), built by umodbus, absent
from src. -/
def write_single_register_pdu (addr value : Nat) : List Nat :=
  [6] ++ u16beBytes addr ++ u16beBytes value

/-- The umodbus `tcp` client module: it exposes its codec functions
directly and, per the spec's note on the `self.protocol.protocol` typo in
src, has no attribute named `protocol`. -/
def tcpModule : ClientModule :=
  { codec := ⟨fun _ addr value => write_single_register_pdu addr value⟩,
    protocolAttr := none }

/-- The umodbus `rtu` client module: like `tcpModule`, it has no attribute
named `protocol`. -/
def rtuModule : ClientModule :=
  { codec := ⟨fun _ addr value => write_single_register_pdu addr value⟩,
    protocolAttr := none }

/-- src `AsyncClient.write_register` (function code 06): the body evaluates
`self.protocol.protocol.write_single_register(slave_id, address, value)`,
i.e. it looks up an attribute named `protocol` on the bound protocol module
before reaching the codec; only if that lookup succeeds is the request
built and sent. -/
def AsyncClient.write_register (p : Proto) (m : ClientModule)
    (slave addr value : Nat) (stream : List Nat) : CallTrace :=
  match m.protocolAttr with
  | none => ⟨[], [], .error .attributeError⟩
  | some sub => send_message p (sub.write_single_register slave addr value) stream

/-- Modelled from the spec: the response PDU a conforming server sends for
a bit read (function codes 01/02): `fc:u8, bytecount:u8, packed_bits`, with
`bytecount = ceil(quantity / 8)` and the bits packed 8 per byte
least-significant-bit first. -/
def read_bits_response_pdu (fc : Nat) (bits : List Bool) : List Nat :=
  fc :: ((bits.length + 7) / 8) :: packBits bits

/-- The scheme and port of a parsed URL (`urllib.parse.urlparse`). -/
structure ParsedURL where
  scheme : String
  port : Option Nat

/-- Modelled from the spec: `connio.SOCKET_SCHEMES`, absent from src. -/
def SOCKET_SCHEMES : List String := ["tcp"]

/-- Modelled from the spec: `connio.SERIAL_SCHEMES`, absent from src. -/
def SERIAL_SCHEMES : List String :=
  ["serial", "serial-tcp", "rfc2217", "serial-tango"]

/-- The kind of client the URL factory constructs. -/
inductive ClientKind where
  | tcpClient
  | rtuClient
deriving DecidableEq, Repr

/-- src `modbus_for_url(url)`: when the scheme is `tcp` and the URL carries
no port, `:502` is appended before connecting; then the scheme routes to an
`AsyncTCPClient` for socket schemes, an `AsyncRTUClient` for serial
schemes, and a ValueError for anything else.  The result records the
client kind and the effective port handed to connio. -/
def modbus_for_url (u : ParsedURL) : Except ModbusErr (ClientKind × Option Nat) :=
  let effectivePort :=
    if u.scheme = "tcp" ∧ u.port = none then some 502 else u.port
  if u.scheme ∈ SOCKET_SCHEMES then .ok (.tcpClient, effectivePort)
  else if u.scheme ∈ SERIAL_SCHEMES then .ok (.rtuClient, effectivePort)
  else .error .unsupportedScheme

/-- The routing of claim C9, written from the claim's words: scheme `tcp`
gives a TCP client with port 502 filled in when missing; the four serial
schemes give an RTU client; anything else is an unsupported-scheme
error. -/
def claimedUrlRouting (u : ParsedURL) :
    Except ModbusErr (ClientKind × Option Nat) :=
  if u.scheme = "tcp" then
    .ok (.tcpClient, some (match u.port with | none => 502 | some p => p))
  else if u.scheme = "serial" ∨ u.scheme = "serial-tcp" ∨
      u.scheme = "rfc2217" ∨ u.scheme = "serial-tango" then
    .ok (.rtuClient, u.port)
  else .error .unsupportedScheme

/-- C4: for every bit vector of length N in 1..1968 and every (16-bit)
starting address, the built write-multiple-coils request PDU (function code
15) is `fc:u8, start:u16 BE, quantity:u16 BE = N, bytecount:u8 = ceil(N/8)`
followed by the bits packed 8 per byte least-significant-bit first, the
trailing unused bits of the final byte zero (bit `i` of packed byte `j` is
element `8*j + i` of the vector, `false` past its end). -/
theorem write_coils_request_pdu_layout (start : Nat) (values : List Bool)
    (hstart : start ≤ 65535) (h1 : 1 ≤ values.length)
    (h2 : values.length ≤ 1968) :
    ∃ packed : List Nat,
      pack_bits 15 start values =
        some ([15, start / 256, start % 256, values.length / 256,
          values.length % 256, (values.length + 7) / 8] ++ packed) ∧
      packed.length = (values.length + 7) / 8 ∧
      ∀ j i, j < packed.length → i < 8 →
        (packed.getD j 0).testBit i = values.getD (8 * j + i) false := by
  refine ⟨packBits values, ?_, packBits_length values, ?_⟩
  · rw [pack_bits, if_pos ⟨by norm_num, hstart, by omega, by omega⟩]
    rfl
  · intro j i _ hi
    rw [packBits_getD, bitsToByte_testBit, getD_take _ _ _ _ hi, getD_drop]

/-- C4 witness: scenario 2 of the spec, values `[1,0,1,1]` at start 1 pack
to PDU `0F 00 01 00 04 01 0D`. -/
theorem write_coils_request_pdu_layout_witness :
    pack_bits 15 1 [true, false, true, true] = some [15, 0, 1, 0, 4, 1, 13] ∧
    ∃ packed : List Nat,
      pack_bits 15 1 [true, false, true, true] =
        some ([15, 1 / 256, 1 % 256, [true, false, true, true].length / 256,
          [true, false, true, true].length % 256,
          ([true, false, true, true].length + 7) / 8] ++ packed) ∧
      packed.length = ([true, false, true, true].length + 7) / 8 ∧
      ∀ j i, j < packed.length → i < 8 →
        (packed.getD j 0).testBit i =
          [true, false, true, true].getD (8 * j + i) false :=
  ⟨by
    rw [pack_bits, if_pos (by norm_num)]
    rw [packBits_cons]
    rw [show ([true, false, true, true] : List Bool).drop 8 = [] from rfl,
      packBits_nil]
    rfl,
   write_coils_request_pdu_layout 1 [true, false, true, true]
    (by norm_num) (by norm_num) (by norm_num)⟩

/-- C3: for every bit read (fc 01/02) of quantity Q in 1..2000, parsing a
conforming response against the original request PDU (whose last two bytes
carry Q, big-endian — the response itself carries only the byte count)
yields a vector of exactly Q booleans, and the byte-count field of the
response equals `ceil(Q/8)`.  The parse result models the `data` attribute
set by `ReadCoils.create_from_response_pdu` / `ReadDiscreteInputs`, whose
`quantity` is its size. -/
theorem read_bits_response_parses_to_quantity (fc : Nat) (bits : List Bool)
    (req_pdu : List Nat) (h1 : 1 ≤ bits.length) (h2 : bits.length ≤ 2000)
    (hreq : lastTwoBE req_pdu = some bits.length) :
    ∃ v, unpack_bits (read_bits_response_pdu fc bits) req_pdu = some v ∧
      v.length = bits.length ∧
      (read_bits_response_pdu fc bits).getD 1 0 = (bits.length + 7) / 8 := by
  have hlen : (packBits bits).length = (bits.length + 7) / 8 :=
    packBits_length bits
  have hdrop1 : (read_bits_response_pdu fc bits).drop 1 =
      ((bits.length + 7) / 8) :: packBits bits := rfl
  have hguard : (bits.length + 7) / 8 + 2 ≤
      (read_bits_response_pdu fc bits).length ∧
      bits.length ≤ 8 * ((bits.length + 7) / 8) := by
    constructor
    · show (bits.length + 7) / 8 + 2 ≤ (fc :: _ :: packBits bits).length
      simp only [List.length_cons, hlen]
      omega
    · omega
  have hdrop2 : ((read_bits_response_pdu fc bits).drop 2).take
      ((bits.length + 7) / 8) = packBits bits := by
    show (packBits bits).take ((bits.length + 7) / 8) = packBits bits
    exact List.take_of_length_le (le_of_eq hlen)
  refine ⟨(unpackBytes (packBits bits)).take bits.length, ?_, ?_, rfl⟩
  · rw [unpack_bits]
    rw [hreq, hdrop1]
    show (if (bits.length + 7) / 8 + 2 ≤ (read_bits_response_pdu fc bits).length ∧
        bits.length ≤ 8 * ((bits.length + 7) / 8) then
      some ((unpackBytes (((read_bits_response_pdu fc bits).drop 2).take
        ((bits.length + 7) / 8))).take bits.length)
      else none) = _
    rw [if_pos hguard, hdrop2]
  · rw [List.length_take, unpackBytes_length, hlen]
    omega

/-- C3 witness: scenario 1 of the spec, quantity 3, response PDU
`01 01 05`, request PDU `01 01 00 00 00 03` tail; the parsed vector is
`[1,0,1]` with byte count 1. -/
theorem read_bits_response_parses_to_quantity_witness :
    (unpack_bits [1, 1, 5] [1, 0, 0, 0, 3] = some [true, false, true]) ∧
    ∃ v, unpack_bits (read_bits_response_pdu 1 [true, false, true])
        [1, 0, 0, 0, 3] = some v ∧
      v.length = [true, false, true].length ∧
      (read_bits_response_pdu 1 [true, false, true]).getD 1 0 =
        ([true, false, true].length + 7) / 8 :=
  ⟨by decide,
   read_bits_response_parses_to_quantity 1 [true, false, true] [1, 0, 0, 0, 3]
    (by norm_num) (by norm_num) (by decide)⟩

/-- C10: the bit-read parser takes the quantity Q from the last two bytes
(big-endian u16) of the original request PDU and returns exactly the first
Q bits of the packed response data (bit `i` is bit `i % 8` of data byte
`i / 8`), so trailing pad bits of the final byte — zero or not — are
discarded and never affect the Q-element result. -/
theorem unpack_bits_first_Q_bits (fc bc : Nat) (data req_pdu : List Nat)
    (Q : Nat) (hreq : lastTwoBE req_pdu = some Q) (hbc : bc ≤ data.length)
    (hQ : Q ≤ 8 * bc) :
    ∃ v, unpack_bits (fc :: bc :: data) req_pdu = some v ∧ v.length = Q ∧
      ∀ i, i < Q → v.getD i false = (data.getD (i / 8) 0).testBit (i % 8) := by
  have hguard : bc + 2 ≤ (fc :: bc :: data).length ∧ Q ≤ 8 * bc := by
    refine ⟨?_, hQ⟩
    simp only [List.length_cons]
    omega
  have htake : (data.take bc).length = bc := by
    rw [List.length_take]
    omega
  refine ⟨(unpackBytes (data.take bc)).take Q, ?_, ?_, ?_⟩
  · rw [unpack_bits, hreq]
    show (if bc + 2 ≤ (fc :: bc :: data).length ∧ Q ≤ 8 * bc then
      some ((unpackBytes (((fc :: bc :: data).drop 2).take bc)).take Q)
      else none) = _
    rw [if_pos hguard]
    rfl
  · rw [List.length_take, unpackBytes_length, htake]
    omega
  · intro i hi
    have hidiv : i / 8 < bc := by omega
    rw [getD_take _ _ _ _ hi, unpackBytes_getD, getD_take _ _ _ _ hidiv]

/-- C10 witness: byte count 1 with data byte 0xFF (all five pad bits set)
still parses at Q = 3 to the three-element vector `[1,1,1]`. -/
theorem unpack_bits_first_Q_bits_witness :
    (unpack_bits [1, 1, 255] [1, 0, 0, 0, 3] = some [true, true, true]) ∧
    ∃ v, unpack_bits (1 :: 1 :: [255]) [1, 0, 0, 0, 3] = some v ∧
      v.length = 3 ∧
      ∀ i, i < 3 → v.getD i false = (([255] : List Nat).getD (i / 8) 0).testBit (i % 8) :=
  ⟨by decide,
   unpack_bits_first_Q_bits 1 1 [255] [1, 0, 0, 0, 3] 3 (by decide)
    (by norm_num) (by norm_num)⟩

/-- C5 counterexample: a reader exposing only a plain `read` — one that
always returns a single byte, so the stream is never at EOF — gets its
`read` installed unchanged as the adapter's `readexactly`; asking for 2
bytes succeeds with only 1 byte, which a looping emulation would never
do. -/
theorem stream_adapter_no_emulation_counterexample :
    StreamAdapter.readexactly oneByteReader 2 = oneByteReader.read 2 ∧
    (StreamAdapter.readexactly oneByteReader 2).length < 2 := by
  exact ⟨rfl, by decide⟩

/-- C5 amended: the adapter prefers a `read_exactly` or `readexactly`
method of the reader (whose exactness it inherits); when the reader
exposes only a plain `read`, that method is installed unchanged — there is
no looping emulation, so `read_exactly(n)` may then return fewer than `n`
bytes. -/
theorem stream_adapter_plain_read_fallback (r : PyReader)
    (h1 : r.readExactlyAttr = none) (h2 : r.readexactlyAttr = none) :
    StreamAdapter.readexactly r = r.read := by
  rw [StreamAdapter.readexactly, h1, h2]

/-- C5 amended witness: the fallback applied to the one-byte reader. -/
theorem stream_adapter_plain_read_fallback_witness :
    StreamAdapter.readexactly oneByteReader = oneByteReader.read :=
  stream_adapter_plain_read_fallback oneByteReader rfl rfl

/-- C6: `AsyncClient.write_register` evaluates
`self.protocol.protocol.write_single_register` — a doubled `.protocol`
attribute access; on both bound protocol modules (which expose no
attribute named `protocol`) every call raises AttributeError before
anything is written, instead of building the write-single-register request
via the codec and returning the echoed value. -/
theorem write_register_attribute_error :
    AsyncClient.write_register .tcp tcpModule 1 0 1 [] =
      ⟨[], [], .error .attributeError⟩ ∧
    AsyncClient.write_register .rtu rtuModule 1 0 1 [] =
      ⟨[], [], .error .attributeError⟩ :=
  ⟨rfl, rfl⟩

/-- C7: every read and write-multiple operation invoked with quantity zero
(or an empty value vector) fails with IllegalDataValue during request
building: the returned trace shows no bytes written and no read issued, on
both protocols. -/
theorem quantity_zero_raises_before_any_write (p : Proto) (signed : Bool)
    (tid uid start : Nat) (stream : List Nat) :
    AsyncClient.read_coils p tid uid start 0 stream =
      ⟨[], [], .error .illegalDataValue⟩ ∧
    AsyncClient.read_discrete_inputs p tid uid start 0 stream =
      ⟨[], [], .error .illegalDataValue⟩ ∧
    AsyncClient.read_holding_registers p tid uid start 0 stream =
      ⟨[], [], .error .illegalDataValue⟩ ∧
    AsyncClient.read_input_registers p tid uid start 0 stream =
      ⟨[], [], .error .illegalDataValue⟩ ∧
    AsyncClient.write_coils p tid uid start [] stream =
      ⟨[], [], .error .illegalDataValue⟩ ∧
    AsyncClient.write_registers p signed tid uid start [] stream =
      ⟨[], [], .error .illegalDataValue⟩ :=
  ⟨rfl, rfl, rfl, rfl, rfl, rfl⟩

theorem encode16_signed_irrelevant (v : Int) (h0 : 0 ≤ v) (h1 : v ≤ 32767) :
    encode16 true v = encode16 false v := by
  show (if -32768 ≤ v ∧ v ≤ 32767 then some (u16beBytes (v % 65536).toNat)
      else none) =
    (if 0 ≤ v ∧ v ≤ 65535 then some (u16beBytes v.toNat) else none)
  rw [if_pos ⟨by omega, h1⟩, if_pos ⟨h0, by omega⟩]
  have hmod : v % 65536 = v := by omega
  rw [hmod]

theorem mapM_encode16_signed_irrelevant (values : List Int)
    (h : ∀ v ∈ values, 0 ≤ v ∧ v ≤ 32767) :
    values.mapM (encode16 true) = values.mapM (encode16 false) := by
  induction values with
  | nil => rfl
  | cons v t ih =>
    have hv := h v (List.mem_cons_self v t)
    have ht := ih (fun x hx => h x (List.mem_cons_of_mem v hx))
    rw [List.mapM_cons, List.mapM_cons, encode16_signed_irrelevant v hv.1 hv.2,
      ht]

theorem decode16_signed (hi lo : Nat) :
    decode16 true hi lo = toSigned16 (decode16 false hi lo) := rfl

theorem decodePairs_signed :
    ∀ l : List Nat, decodePairs true l = (decodePairs false l).map toSigned16
  | [] => rfl
  | [_] => rfl
  | hi :: lo :: rest => by
    rw [decodePairs, decodePairs, List.map_cons, decode16_signed,
      decodePairs_signed rest]

/-- C8: the register wire encoding does not depend on the signed flag — for
every value vector representable under both 16-bit interpretations
(0..32767), `pack_16bits` produces identical bytes with the flag true and
false; the flag only changes register reads, whose signed result is the
two's-complement reinterpretation of the unsigned result. -/
theorem signed_flag_wire_invariance (fc start : Nat) (values : List Int)
    (h : ∀ v ∈ values, 0 ≤ v ∧ v ≤ 32767) :
    pack_16bits true fc start values = pack_16bits false fc start values ∧
    ∀ resp req, unpack_16bits true resp req =
      (unpack_16bits false resp req).map (List.map toSigned16) := by
  constructor
  · rw [pack_16bits, pack_16bits, mapM_encode16_signed_irrelevant values h]
  · intro resp req
    rw [unpack_16bits, unpack_16bits]
    cases hl : lastTwoBE req with
    | none => rfl
    | some count =>
      show (if 2 + 2 * count ≤ resp.length then
          some (decodePairs true ((resp.drop 2).take (2 * count)))
        else none) =
        Option.map (List.map toSigned16) (if 2 + 2 * count ≤ resp.length then
          some (decodePairs false ((resp.drop 2).take (2 * count)))
        else none)
      by_cases hg : 2 + 2 * count ≤ resp.length
      · rw [if_pos hg, if_pos hg, decodePairs_signed]
        rfl
      · rw [if_neg hg, if_neg hg]
        rfl

/-- C8 witness: the vector `[0, 1, 32767]` (representable under both
interpretations) packs identically under both flags. -/
theorem signed_flag_wire_invariance_witness :
    pack_16bits true 16 0 [0, 1, 32767] = pack_16bits false 16 0 [0, 1, 32767] ∧
    ∀ resp req, unpack_16bits true resp req =
      (unpack_16bits false resp req).map (List.map toSigned16) :=
  signed_flag_wire_invariance 16 0 [0, 1, 32767] (by decide)

/-- C9: the URL factory returns a TCP client for scheme `tcp` (filling in
the default port 502 when the URL gives none), an RTU client for the four
serial-family schemes, and an unsupported-scheme error for every other
scheme — i.e. it coincides with the routing spelled out by the claim. -/
theorem modbus_for_url_routing (u : ParsedURL) :
    modbus_for_url u = claimedUrlRouting u := by
  rcases u with ⟨scheme, port⟩
  by_cases h1 : scheme = "tcp"
  · subst h1
    cases port with
    | none => rfl
    | some p => rfl
  · simp only [modbus_for_url, claimedUrlRouting, SOCKET_SCHEMES,
      SERIAL_SCHEMES, List.mem_cons, List.mem_singleton, List.not_mem_nil,
      or_false, h1, false_and, if_false, ite_false]

/-- C1: when the response begins with an exception ADU (bit 0x80 set in
the PDU function-code byte, and for RTU a valid CRC over the prefix), both
transaction drivers raise the mapped ProtocolException after one
`readexactly` of exactly the exception-prefix size — 9 bytes for TCP, 5
for RTU — and issue no further read. -/
theorem exception_response_reads_only_prefix
    (adu_t stream_t adu_r stream_r : List Nat) (k_t k_r : ExceptionKind)
    (hlen_t : 9 ≤ stream_t.length)
    (hbit_t : (stream_t.getD 7 0).testBit 7 = true)
    (hmap_t : exceptionKindOfCode (stream_t.getD 8 0) = some k_t)
    (hlen_r : 5 ≤ stream_r.length)
    (hbit_r : (stream_r.getD 1 0).testBit 7 = true)
    (hcrc_r : (stream_r.take 5).drop 3 = crcBytes ((stream_r.take 5).take 3))
    (hmap_r : exceptionKindOfCode (stream_r.getD 2 0) = some k_r) :
    send_message_tcp adu_t stream_t =
      ⟨adu_t, [9], .error (.protocolException k_t)⟩ ∧
    send_message_rtu adu_r stream_r =
      ⟨adu_r, [5], .error (.protocolException k_r)⟩ := by
  constructor
  · have h9 : readexactly stream_t 9 =
        some (stream_t.take 9, stream_t.drop 9) := by
      rw [readexactly, if_pos hlen_t]
    have hraise : raise_for_exception_adu_tcp (stream_t.take 9) =
        some (.protocolException k_t) := by
      rw [raise_for_exception_adu_tcp,
        getD_take _ _ _ _ (by norm_num : (7 : Nat) < 9),
        getD_take _ _ _ _ (by norm_num : (8 : Nat) < 9), hbit_t, hmap_t]
      rfl
    simp only [send_message_tcp, h9, hraise]
  · have h5 : readexactly stream_r 5 =
        some (stream_r.take 5, stream_r.drop 5) := by
      rw [readexactly, if_pos hlen_r]
    have hraise : raise_for_exception_adu_rtu (stream_r.take 5) =
        some (.protocolException k_r) := by
      rw [raise_for_exception_adu_rtu,
        getD_take _ _ _ _ (by norm_num : (1 : Nat) < 5),
        getD_take _ _ _ _ (by norm_num : (2 : Nat) < 5), hbit_r, hmap_r]
      rw [if_pos rfl, if_pos hcrc_r]
    simp only [send_message_rtu, h5, hraise]

/-- C1 witness: scenario 4 of the spec for TCP (`00 05 00 00 00 03 01 83
02`, exception code 2) and the corresponding RTU exception ADU with its
CRC; in both cases the trace shows a single read of the prefix size and
the IllegalDataAddress ProtocolException. -/
theorem exception_response_reads_only_prefix_witness :
    send_message_tcp [] [0, 5, 0, 0, 0, 3, 1, 131, 2] =
      ⟨[], [9], .error (.protocolException .illegalDataAddress)⟩ ∧
    send_message_rtu [] ([1, 131, 2] ++ crcBytes [1, 131, 2]) =
      ⟨[], [5], .error (.protocolException .illegalDataAddress)⟩ :=
  exception_response_reads_only_prefix [] [0, 5, 0, 0, 0, 3, 1, 131, 2]
    [] ([1, 131, 2] ++ crcBytes [1, 131, 2])
    .illegalDataAddress .illegalDataAddress
    (by decide) (by decide) (by decide) (by decide) (by decide) (by decide)
    (by decide)

/-- C2: for a non-exception response, after the exception-sized prefix
both drivers issue exactly one further read of
`response_pdu_size(request_pdu) - 2` bytes: the remainder
`(framing overhead + response_pdu_size) - exception prefix` equals
`s + 7 - 9 = s - 2` for TCP and `s + 3 - 5 = s - 2` for RTU. -/
theorem normal_response_remainder_size
    (adu_t stream_t adu_r stream_r : List Nat) (s_t s_r : Nat)
    (hs_t : expected_response_pdu_size_from_request_pdu (adu_t.drop 7) =
      some s_t)
    (hbit_t : (stream_t.getD 7 0).testBit 7 = false)
    (hlen_t : 9 ≤ stream_t.length)
    (hs_r : expected_response_pdu_size_from_request_pdu
      ((adu_r.take (adu_r.length - 2)).drop 1) = some s_r)
    (hbit_r : (stream_r.getD 1 0).testBit 7 = false)
    (hlen_r : 5 ≤ stream_r.length) :
    (send_message_tcp adu_t stream_t).reads = [9, s_t - 2] ∧
    s_t + 7 - 9 = s_t - 2 ∧
    (send_message_rtu adu_r stream_r).reads = [5, s_r - 2] ∧
    s_r + 3 - 5 = s_r - 2 := by
  have h2t := expected_response_pdu_size_ge_two _ _ hs_t
  have h2r := expected_response_pdu_size_ge_two _ _ hs_r
  have heq_t : s_t + 7 - 9 = s_t - 2 := by omega
  have heq_r : s_r + 3 - 5 = s_r - 2 := by omega
  refine ⟨?_, heq_t, ?_, heq_r⟩
  · have h9 : readexactly stream_t 9 =
        some (stream_t.take 9, stream_t.drop 9) := by
      rw [readexactly, if_pos hlen_t]
    have hraise : raise_for_exception_adu_tcp (stream_t.take 9) = none := by
      rw [raise_for_exception_adu_tcp,
        getD_take _ _ _ _ (by norm_num : (7 : Nat) < 9), hbit_t]
      rfl
    simp only [send_message_tcp, h9, hraise, hs_t, heq_t]
    cases hre : readexactly (stream_t.drop 9) (s_t - 2) with
    | none => rfl
    | some pr =>
      obtain ⟨a, b⟩ := pr
      rfl
  · have h5 : readexactly stream_r 5 =
        some (stream_r.take 5, stream_r.drop 5) := by
      rw [readexactly, if_pos hlen_r]
    have hraise : raise_for_exception_adu_rtu (stream_r.take 5) = none := by
      rw [raise_for_exception_adu_rtu,
        getD_take _ _ _ _ (by norm_num : (1 : Nat) < 5), hbit_r]
      rfl
    simp only [send_message_rtu, h5, hraise, hs_r, heq_r]
    cases hre : readexactly (stream_r.drop 5) (s_r - 2) with
    | none => rfl
    | some pr =>
      obtain ⟨a, b⟩ := pr
      rfl

/-- C2 witness: scenario 1 of the spec for TCP (read 3 coils, response PDU
size 3, remainder 1 byte) and scenario 3 for RTU (read 2 holding
registers, response PDU size 6, remainder 4 bytes). -/
theorem normal_response_remainder_size_witness :
    (send_message_tcp [0, 1, 0, 0, 0, 6, 1, 1, 0, 0, 0, 3]
      [0, 1, 0, 0, 0, 4, 1, 1, 1, 5]).reads = [9, 3 - 2] ∧
    3 + 7 - 9 = 3 - 2 ∧
    (send_message_rtu [1, 3, 0, 0, 0, 2, 196, 11]
      [1, 3, 4, 18, 52, 171, 205, 0, 0]).reads = [5, 6 - 2] ∧
    6 + 3 - 5 = 6 - 2 :=
  normal_response_remainder_size [0, 1, 0, 0, 0, 6, 1, 1, 0, 0, 0, 3]
    [0, 1, 0, 0, 0, 4, 1, 1, 1, 5] [1, 3, 0, 0, 0, 2, 196, 11]
    [1, 3, 4, 18, 52, 171, 205, 0, 0] 3 6
    (by decide) (by decide) (by decide) (by decide) (by decide) (by decide)
